import Mathlib

/-!
Verification development for the CareerCompass client.

Strings are embedded as `List Char`.  The markdown-cleaning utilities of
`chat-section.tsx`, `salary-insights-section.tsx`, `interview-prep-section.tsx`
and `cover-letter-section` are embedded as scanning machines that reproduce the
JavaScript global-regex replacement semantics pass by pass.  The analysis,
chat, interview and cover-letter handlers are embedded as pure state-transition
functions over an explicit fetch outcome.
-/

namespace CareerCompass

/-- Characters of a string literal. -/
def chars (s : String) : List Char := s.toList

/-- JavaScript regex whitespace class (the ASCII part of JS). -/
def isWs (c : Char) : Bool :=
  c == ' ' || c == '\t' || c == '\n' || c == '\r' || c == '\x0b' || c == '\x0c'

/-- Positions after these characters are line starts for a multiline anchor. -/
def isLineTerm (c : Char) : Bool :=
  c == '\n' || c == '\r'

/-- The character class of the list-marker regex of the cleaners. -/
def isMarker (c : Char) : Bool :=
  c == '-' || c == '+' || c.isDigit

/-- Pass 1 of `cleanText` (salary, interview, cover letter): the global
replacement of the alternation of the two emphasis markers made of asterisks
and the two made of underscores by the empty string. -/
def stripEmphasis : List Char → List Char
  | [] => []
  | '*' :: '*' :: rest => stripEmphasis rest
  | '*' :: rest => stripEmphasis rest
  | '_' :: '_' :: rest => stripEmphasis rest
  | '_' :: rest => stripEmphasis rest
  | c :: rest => c :: stripEmphasis rest

/-- Pass 1 of `cleanResponseFormatting` (chat): the same replacement but the
alternation holds only the double and the single asterisk. -/
def stripEmphasisStars : List Char → List Char
  | [] => []
  | '*' :: '*' :: rest => stripEmphasisStars rest
  | '*' :: rest => stripEmphasisStars rest
  | c :: rest => c :: stripEmphasisStars rest

/-- Scanner state for the heading pass: ordinary scanning with a
beginning-of-line flag, consuming a run of hash signs, or consuming the greedy
whitespace run after the hashes (remembering whether the character just
consumed was a line terminator). -/
inductive HMode : Type
  | scan : Bool → HMode
  | hashes : HMode
  | hws : Bool → HMode

/-- Pass 2 of the cleaners: global multiline replacement of a line-leading run
of hash signs followed by greedy whitespace by the empty string. -/
def stripHeadingsM : HMode → List Char → List Char
  | _, [] => []
  | HMode.scan bol, c :: rest =>
      if bol && c == '#' then stripHeadingsM HMode.hashes rest
      else c :: stripHeadingsM (HMode.scan (isLineTerm c)) rest
  | HMode.hashes, c :: rest =>
      if c == '#' then stripHeadingsM HMode.hashes rest
      else if isWs c then stripHeadingsM (HMode.hws (isLineTerm c)) rest
      else c :: stripHeadingsM (HMode.scan (isLineTerm c)) rest
  | HMode.hws lastNl, c :: rest =>
      if isWs c then stripHeadingsM (HMode.hws (isLineTerm c)) rest
      else if lastNl && c == '#' then stripHeadingsM HMode.hashes rest
      else c :: stripHeadingsM (HMode.scan (isLineTerm c)) rest

/-- The heading pass applied from the start of the string. -/
def stripHeadings (l : List Char) : List Char :=
  stripHeadingsM (HMode.scan true) l

/-- Scanner state for the list-marker pass: ordinary scanning, buffering the
leading greedy whitespace of a candidate match, consuming the marker run,
having consumed the optional dot, or consuming the trailing whitespace run. -/
inductive LMode : Type
  | scan : Bool → LMode
  | lws : List Char → LMode
  | mark : LMode
  | dot : LMode
  | tws : Bool → LMode

/-- Pass 3 of the cleaners: global multiline replacement of a line-leading
greedy whitespace run, a nonempty run of dashes, pluses or digits, an optional
dot and a greedy trailing whitespace run, by the empty string. -/
def stripListM : LMode → List Char → List Char
  | LMode.scan _, [] => []
  | LMode.lws acc, [] => acc.reverse
  | LMode.mark, [] => []
  | LMode.dot, [] => []
  | LMode.tws _, [] => []
  | LMode.scan bol, c :: rest =>
      if bol && isWs c then stripListM (LMode.lws [c]) rest
      else if bol && isMarker c then stripListM LMode.mark rest
      else c :: stripListM (LMode.scan (isLineTerm c)) rest
  | LMode.lws acc, c :: rest =>
      if isWs c then stripListM (LMode.lws (c :: acc)) rest
      else if isMarker c then stripListM LMode.mark rest
      else acc.reverse ++ c :: stripListM (LMode.scan (isLineTerm c)) rest
  | LMode.mark, c :: rest =>
      if isMarker c then stripListM LMode.mark rest
      else if c == '.' then stripListM LMode.dot rest
      else if isWs c then stripListM (LMode.tws (isLineTerm c)) rest
      else c :: stripListM (LMode.scan (isLineTerm c)) rest
  | LMode.dot, c :: rest =>
      if isWs c then stripListM (LMode.tws (isLineTerm c)) rest
      else c :: stripListM (LMode.scan (isLineTerm c)) rest
  | LMode.tws lastNl, c :: rest =>
      if isWs c then stripListM (LMode.tws (isLineTerm c)) rest
      else if lastNl && isMarker c then stripListM LMode.mark rest
      else c :: stripListM (LMode.scan (isLineTerm c)) rest

/-- The list-marker pass applied from the start of the string. -/
def stripListMarkers (l : List Char) : List Char :=
  stripListM (LMode.scan true) l

/-- Scanner state for the blockquote pass: ordinary scanning, or consuming the
greedy whitespace run after a line-leading greater-than sign. -/
inductive QMode : Type
  | scan : Bool → QMode
  | qws : Bool → QMode

/-- Pass 4 of the salary cleaner: global multiline replacement of a
line-leading greater-than sign followed by greedy whitespace by the empty
string. -/
def stripQuoteM : QMode → List Char → List Char
  | _, [] => []
  | QMode.scan bol, c :: rest =>
      if bol && c == '>' then stripQuoteM (QMode.qws false) rest
      else c :: stripQuoteM (QMode.scan (isLineTerm c)) rest
  | QMode.qws lastNl, c :: rest =>
      if isWs c then stripQuoteM (QMode.qws (isLineTerm c)) rest
      else if lastNl && c == '>' then stripQuoteM (QMode.qws false) rest
      else c :: stripQuoteM (QMode.scan (isLineTerm c)) rest

/-- The blockquote pass applied from the start of the string. -/
def stripQuotes (l : List Char) : List Char :=
  stripQuoteM (QMode.scan true) l

/-- Pass 4 of the chat cleaner: global replacement of a greedy run of three or
more line-break units (a newline optionally preceded by a carriage return) by
exactly two newlines.  The first argument buffers the unit run consumed so far
in reverse, the second counts its units. -/
def collapseM : List Char → Nat → List Char → List Char
  | acc, n, [] => if 3 ≤ n then ['\n', '\n'] else acc.reverse
  | acc, n, '\n' :: rest => collapseM ('\n' :: acc) (n + 1) rest
  | acc, n, '\r' :: '\n' :: rest => collapseM ('\n' :: '\r' :: acc) (n + 1) rest
  | acc, n, c :: rest =>
      (if 3 ≤ n then ['\n', '\n'] else acc.reverse) ++ c :: collapseM [] 0 rest

/-- The newline-collapsing pass applied from the start of the string. -/
def collapseNewlines (l : List Char) : List Char :=
  collapseM [] 0 l

/-- The final trim of the cleaners: drop whitespace from both ends. -/
def trimL (l : List Char) : List Char :=
  (((l.dropWhile isWs).reverse.dropWhile isWs)).reverse

/-- `cleanText` of `salary-insights-section.tsx`: emphasis, heading,
list-marker and blockquote passes, then trim; the empty string short-circuits. -/
def cleanTextSalary (text : List Char) : List Char :=
  if text.isEmpty then [] else
    trimL (stripQuotes (stripListMarkers (stripHeadings (stripEmphasis text))))

/-- `cleanText` of `interview-prep-section.tsx`: emphasis, heading and
list-marker passes, then trim; the empty string short-circuits. -/
def cleanTextInterview (text : List Char) : List Char :=
  if text.isEmpty then [] else
    trimL (stripListMarkers (stripHeadings (stripEmphasis text)))

/-- `cleanResponseFormatting` of `chat-section.tsx`: asterisk-only emphasis
pass, heading and list-marker passes, newline collapsing, then trim; the empty
string short-circuits. -/
def cleanResponseFormatting (text : List Char) : List Char :=
  if text.isEmpty then [] else
    trimL (collapseNewlines (stripListMarkers (stripHeadings (stripEmphasisStars text))))

/-- Scanner state for the paragraph splitter of the cover-letter section:
ordinary scanning, having consumed one line-break unit and the following
whitespace (buffered in reverse in case no second break completes a
separator), or inside a confirmed separator (buffering the whitespace consumed
since the last newline, which belongs to the next piece). -/
inductive SMode : Type
  | norm : SMode
  | afterNl : List Char → SMode
  | inSep : List Char → SMode

/-- The split of `textToHtmlParagraphs` on the separator regex: a line-break
unit (a newline optionally preceded by a carriage return), greedy whitespace,
and a final line-break unit; the greedy run backtracks so that the separator
ends at the last newline of the whitespace run.  The accumulator holds the
current piece in reverse. -/
def splitParas (acc : List Char) : SMode → List Char → List (List Char)
  | SMode.norm, [] => [acc.reverse]
  | SMode.norm, '\r' :: '\n' :: t => splitParas acc (SMode.afterNl ['\n', '\r']) t
  | SMode.norm, '\n' :: t => splitParas acc (SMode.afterNl ['\n']) t
  | SMode.norm, c :: t => splitParas (c :: acc) SMode.norm t
  | SMode.afterNl pend, [] => [(pend ++ acc).reverse]
  | SMode.afterNl _, '\n' :: t => splitParas acc (SMode.inSep []) t
  | SMode.afterNl pend, c :: t =>
      if isWs c then splitParas acc (SMode.afterNl (c :: pend)) t
      else splitParas (c :: (pend ++ acc)) SMode.norm t
  | SMode.inSep tail, [] => [acc.reverse, tail.reverse]
  | SMode.inSep _, '\n' :: t => splitParas acc (SMode.inSep []) t
  | SMode.inSep tail, c :: t =>
      if isWs c then splitParas acc (SMode.inSep (c :: tail)) t
      else acc.reverse :: splitParas (c :: tail) SMode.norm t

/-- The paragraph split applied from the start of the string. -/
def splitParagraphs (l : List Char) : List (List Char) :=
  splitParas [] SMode.norm l

/-- The inner replacement of `textToHtmlParagraphs`: every line-break unit
becomes the literal break tag. -/
def brReplace : List Char → List Char
  | [] => []
  | '\r' :: '\n' :: t => chars "<br>" ++ brReplace t
  | '\n' :: t => chars "<br>" ++ brReplace t
  | c :: t => c :: brReplace t

/-- The paragraph wrapper of `textToHtmlParagraphs`. -/
def pWrap (content : List Char) : List Char :=
  chars "<p class=\"mb-4 leading-relaxed\">" ++ content ++ chars "</p>"

/-- `textToHtmlParagraphs` of the cover-letter section: strip the four
emphasis markers, trim, split into paragraph pieces, drop the pieces that are
blank after trimming, replace the remaining line breaks by break tags, wrap
each piece in a paragraph tag and concatenate. -/
def textToHtmlParagraphs (text : List Char) : List Char :=
  if text.isEmpty then [] else
    List.flatten
      (((splitParagraphs (trimL (stripEmphasis text))).filter
          (fun p => !(trimL p).isEmpty)).map (fun p => pWrap (brReplace p)))

/-- Scanner state for the split described by the claim: ordinary scanning,
exactly one line-break unit seen so far (buffered in reverse), or at least two
consecutive units seen. -/
inductive KMode : Type
  | norm : KMode
  | one : List Char → KMode
  | many : KMode

/-- Modelled from the claim wording for comparison with the source: a split on
boundaries of two or more consecutive line-break units, with no intervening
whitespace allowed inside a boundary. -/
def splitConsecM (acc : List Char) : KMode → List Char → List (List Char)
  | KMode.norm, [] => [acc.reverse]
  | KMode.norm, '\r' :: '\n' :: t => splitConsecM acc (KMode.one ['\n', '\r']) t
  | KMode.norm, '\n' :: t => splitConsecM acc (KMode.one ['\n']) t
  | KMode.norm, c :: t => splitConsecM (c :: acc) KMode.norm t
  | KMode.one _, '\r' :: '\n' :: t => splitConsecM acc KMode.many t
  | KMode.one _, '\n' :: t => splitConsecM acc KMode.many t
  | KMode.one pend, [] => [(pend ++ acc).reverse]
  | KMode.one pend, c :: t => splitConsecM (c :: (pend ++ acc)) KMode.norm t
  | KMode.many, [] => [acc.reverse, []]
  | KMode.many, '\r' :: '\n' :: t => splitConsecM acc KMode.many t
  | KMode.many, '\n' :: t => splitConsecM acc KMode.many t
  | KMode.many, c :: t => acc.reverse :: splitConsecM [c] KMode.norm t

/-- Modelled from the claim wording for comparison with the source: the block
pipeline with the split taken on two-or-more consecutive line breaks, the rest
as in the source. -/
def claimedHtmlParagraphs (text : List Char) : List Char :=
  if text.isEmpty then [] else
    List.flatten
      (((splitConsecM [] KMode.norm (trimL (stripEmphasis text))).filter
          (fun p => !(trimL p).isEmpty)).map (fun p => pWrap (brReplace p)))

/-- Outcome of the external fetch, supplied to the embedded handlers. -/
inductive FetchOutcome (α : Type) : Type
  | failure : FetchOutcome α
  | success : α → FetchOutcome α

/-- The score-breakdown object of the analysis payload. -/
structure ScoreBreakdownData where
  skill_match : Nat
  semantic_similarity : Nat
  keyword_density_bonus : Nat
deriving DecidableEq

/-- The keyword-analysis object of the analysis payload. -/
structure KeywordAnalysisData where
  matching_keywords : List (List Char)
  missing_keywords : List (List Char)
  total_job_keywords : Nat
  match_percentage : Nat
  keyword_density : List (List Char × Nat)
deriving DecidableEq

/-- The ATS-status object of the analysis payload. -/
structure AtsStatusData where
  level : List Char
  label : List Char
deriving DecidableEq

/-- One element of the `results` array of the analysis response; every field
is optional because the handler stores the payload untyped and unchecked. -/
structure AnalysisResultPayload where
  score : Option Int
  score_breakdown : Option ScoreBreakdownData
  keyword_analysis : Option KeywordAnalysisData
  ats_status : Option AtsStatusData
  summary : Option (List Char)
  recommendations : Option (List (List Char))
deriving DecidableEq

/-- The analysis response body. -/
structure AnalyzeResponse where
  results : List AnalysisResultPayload
deriving DecidableEq

/-- The toast shown by the analysis handler. -/
inductive AnalysisToast : Type
  | jobRequirementRequired : AnalysisToast
  | analysisFailed : AnalysisToast
  | analysisComplete : AnalysisToast
deriving DecidableEq

/-- The observable result of one run of `handleAnalyze`: the stored analysis
result, whether a request was issued, and the toast shown. -/
structure AnalyzeStep where
  analysisResult : Option AnalysisResultPayload
  fetchIssued : Bool
  toast : AnalysisToast
deriving DecidableEq

/-- `handleAnalyze` of `analysis-section.tsx`: a blank job requirement toasts
and returns before any request; otherwise the first element of the results
array is stored with no shape validation, an empty results array or a
transport failure toasts a failure and leaves no result stored. -/
def handleAnalyze (jobRequirement : List Char) (prev : Option AnalysisResultPayload)
    (fetch : FetchOutcome AnalyzeResponse) : AnalyzeStep :=
  if (trimL jobRequirement).isEmpty then
    ⟨prev, false, AnalysisToast.jobRequirementRequired⟩
  else
    match fetch with
    | FetchOutcome.failure => ⟨prev, true, AnalysisToast.analysisFailed⟩
    | FetchOutcome.success data =>
        match data.results.head? with
        | none => ⟨none, true, AnalysisToast.analysisFailed⟩
        | some r => ⟨some r, true, AnalysisToast.analysisComplete⟩

/-- The interview-prep response body; the four fields are optional keys. -/
structure InterviewPrepPayload where
  technical_questions : Option (List (List Char))
  behavioral_questions : Option (List (List Char))
  key_talking_points : Option (List (List Char))
  questions_to_ask : Option (List (List Char))
deriving DecidableEq

/-- The validated and cleaned interview-prep state. -/
structure InterviewPrepData where
  technical_questions : List (List Char)
  behavioral_questions : List (List Char)
  key_talking_points : List (List Char)
  questions_to_ask : List (List Char)
deriving DecidableEq

/-- The validation and cleaning step of `handleGenerate` in
`interview-prep-section.tsx`: missing technical or behavioral questions raise
the incomplete-data error, the two other array fields default to the empty
array, and every string is cleaned. -/
def processInterviewPayload (d : InterviewPrepPayload) : Option InterviewPrepData :=
  match d.technical_questions, d.behavioral_questions with
  | some tq, some bq =>
      some { technical_questions := tq.map cleanTextInterview,
             behavioral_questions := bq.map cleanTextInterview,
             key_talking_points :=
               match d.key_talking_points with
               | some l => l.map cleanTextInterview
               | none => [],
             questions_to_ask :=
               match d.questions_to_ask with
               | some l => l.map cleanTextInterview
               | none => [] }
  | _, _ => none

/-- The toast shown by the interview-prep handler. -/
inductive InterviewToast : Type
  | jobRequirementRequired : InterviewToast
  | generationFailed : InterviewToast
  | prepReady : InterviewToast
deriving DecidableEq

/-- The observable result of one run of the interview-prep handler. -/
structure InterviewStep where
  prepData : Option InterviewPrepData
  fetchIssued : Bool
  toast : InterviewToast
deriving DecidableEq

/-- `handleGenerate` of `interview-prep-section.tsx`: a blank job requirement
toasts and returns; otherwise the previous prep data is cleared before the
request, and on any failure or invalid payload the state stays cleared. -/
def handleGenerateInterview (jobRequirement : List Char) (prev : Option InterviewPrepData)
    (fetch : FetchOutcome InterviewPrepPayload) : InterviewStep :=
  if (trimL jobRequirement).isEmpty then
    ⟨prev, false, InterviewToast.jobRequirementRequired⟩
  else
    match fetch with
    | FetchOutcome.failure => ⟨none, true, InterviewToast.generationFailed⟩
    | FetchOutcome.success d =>
        match processInterviewPayload d with
        | none => ⟨none, true, InterviewToast.generationFailed⟩
        | some cleaned => ⟨some cleaned, true, InterviewToast.prepReady⟩

/-- A chat message role. -/
inductive Role : Type
  | user : Role
  | assistant : Role
deriving DecidableEq

/-- A chat message. -/
structure ChatMessage where
  role : Role
  content : List Char
deriving DecidableEq

/-- `handleSend` of `chat-section.tsx`: empty text returns unchanged; the user
message is appended before the request; on success the cleaned assistant reply
is appended after it; on failure the last message is sliced off again. -/
def handleSend (messages : List ChatMessage) (textToSend : List Char)
    (fetch : FetchOutcome (List Char)) : List ChatMessage :=
  if textToSend.isEmpty then messages
  else
    match fetch with
    | FetchOutcome.success response =>
        (messages ++ [⟨Role.user, textToSend⟩]) ++
          [⟨Role.assistant, cleanResponseFormatting response⟩]
    | FetchOutcome.failure =>
        List.dropLast (messages ++ [⟨Role.user, textToSend⟩])

/-- JavaScript falsy-or on strings: the left operand unless it is empty. -/
def jsOrDefault (a b : List Char) : List Char :=
  if a.isEmpty then b else a

/-- The request body of the cover-letter generation call. -/
structure CoverLetterRequest where
  job_requirement : List Char
  company_name : List Char
deriving DecidableEq

/-- The body built by `handleGenerate` of the cover-letter section: the job
requirement as typed, and the trimmed company name with the literal fallback. -/
def coverLetterRequestBody (jobRequirement companyName : List Char) : CoverLetterRequest :=
  ⟨jobRequirement, jsOrDefault (trimL companyName) (chars "Hiring Team")⟩

/-- `getScoreColor` of `analysis-section.tsx`. -/
def getScoreColor (score : Int) : List Char :=
  if 85 ≤ score then chars "text-green-600 dark:text-green-400"
  else if 70 ≤ score then chars "text-yellow-600 dark:text-yellow-400"
  else if 50 ≤ score then chars "text-orange-600 dark:text-orange-400"
  else chars "text-red-600 dark:text-red-400"

/-- `getProgressColor` of `analysis-section.tsx`. -/
def getProgressColor (score : Int) : List Char :=
  if 85 ≤ score then chars "bg-green-600"
  else if 70 ≤ score then chars "bg-yellow-600"
  else if 50 ≤ score then chars "bg-orange-600"
  else chars "bg-red-600"

/-- Rank of a color class in the band order, lowest to highest. -/
def colorBandRank (c : List Char) : Nat :=
  if c = chars "text-green-600 dark:text-green-400" ∨ c = chars "bg-green-600" then 3
  else if c = chars "text-yellow-600 dark:text-yellow-400" ∨ c = chars "bg-yellow-600" then 2
  else if c = chars "text-orange-600 dark:text-orange-400" ∨ c = chars "bg-orange-600" then 1
  else 0

/-- Modelled from the spec: the combination step of the Match Scorer lives in
the Flask backend, which is not among the reviewed sources; per the spec the
overall score is sixty percent of the skill match plus thirty percent of the
semantic similarity plus the density bonus (the bonus over ten, times one
hundred, weighted ten percent), rounded to the nearest integer and clamped to
at most one hundred. -/
def overallScore (skillMatch semanticSimilarity keywordDensityBonus : Nat) : Nat :=
  min 100 ((6 * skillMatch + 3 * semanticSimilarity + 10 * keywordDensityBonus + 5) / 10)

/-- One row of the score-breakdown grid of the analysis view. -/
structure BreakdownRow where
  label : List Char
  shown : Nat
  progressValue : Nat
deriving DecidableEq

/-- The three sub-score rows of the analysis view with their labels, displayed
values and progress-bar values, from the score-breakdown block of
`analysis-section.tsx`. -/
def renderScoreBreakdown (b : ScoreBreakdownData) : List BreakdownRow :=
  [⟨chars "Keyword Match (60%)", b.skill_match, b.skill_match⟩,
   ⟨chars "Content Match (30%)", b.semantic_similarity, b.semantic_similarity⟩,
   ⟨chars "Density Bonus (10%)", b.keyword_density_bonus, b.keyword_density_bonus * 10⟩]

/-- The characters the claims regard as structural markup. -/
def isClaimMarkup (c : Char) : Bool :=
  c == '*' || c == '_' || c == '#' || c == '-' || c == '+' || c == '>'

/-- The maximal runs of characters that are neither whitespace nor structural
markup, the way the word-preservation claim reads a string. -/
def wordsOf (l : List Char) : List (List Char) :=
  (l.splitOnP (fun c => isWs c || isClaimMarkup c)).filter (fun w => !w.isEmpty)

/-- The characters any cleaning pass may delete: whitespace, the markup
characters, the dot and the digits. -/
def structuralChar (c : Char) : Bool :=
  isWs c || isClaimMarkup c || c == '.' || c.isDigit

/-- The whitespace buffer of a list-marker scanner state. -/
def laccOf : LMode → List Char
  | LMode.lws acc => acc
  | _ => []

/-- The emphasis pass deletes exactly the asterisks and underscores. -/
theorem stripEmphasis_eq_filter (l : List Char) :
    stripEmphasis l = l.filter (fun c => !(c == '*' || c == '_')) := by
  induction l using stripEmphasis.induct <;> simp_all [stripEmphasis]

/-- The chat emphasis pass deletes exactly the asterisks. -/
theorem stripEmphasisStars_eq_filter (l : List Char) :
    stripEmphasisStars l = l.filter (fun c => !(c == '*')) := by
  induction l using stripEmphasisStars.induct <;> simp_all [stripEmphasisStars]

/-- The heading pass only deletes hash signs and whitespace: any filter
rejecting those is preserved. -/
theorem filter_stripHeadingsM (p : Char → Bool) (hp1 : p '#' = false)
    (hws : ∀ c, isWs c = true → p c = false) (m : HMode) (l : List Char) :
    (stripHeadingsM m l).filter p = l.filter p := by
  induction m, l using stripHeadingsM.induct <;>
    simp_all [stripHeadingsM, List.filter_cons] <;>
    split_ifs <;> simp_all [List.filter_cons]

/-- The list-marker pass only deletes marker characters, dots and whitespace:
any filter rejecting those is preserved. -/
theorem filter_stripListM (p : Char → Bool)
    (hmk : ∀ c, isMarker c = true → p c = false) (hdot : p '.' = false)
    (hws : ∀ c, isWs c = true → p c = false) (m : LMode) (l : List Char)
    (hacc : ∀ a ∈ laccOf m, isWs a = true) :
    (stripListM m l).filter p = l.filter p := by
  induction m, l using stripListM.induct <;>
    simp_all [stripListM, laccOf, List.filter_cons, List.filter_append, List.filter_reverse] <;>
    split_ifs <;> simp_all [List.filter_cons]

/-- The blockquote pass only deletes greater-than signs and whitespace. -/
theorem filter_stripQuoteM (p : Char → Bool) (hq : p '>' = false)
    (hws : ∀ c, isWs c = true → p c = false) (m : QMode) (l : List Char) :
    (stripQuoteM m l).filter p = l.filter p := by
  induction m, l using stripQuoteM.induct <;>
    simp_all [stripQuoteM, List.filter_cons] <;>
    split_ifs <;> simp_all [List.filter_cons]

/-- The newline-collapsing pass only deletes or inserts newlines and carriage
returns. -/
theorem filter_collapseM (p : Char → Bool) (hnl : p '\n' = false) (hcr : p '\r' = false)
    (acc : List Char) (n : Nat) (l : List Char)
    (hacc : ∀ a ∈ acc, p a = false) :
    (collapseM acc n l).filter p = l.filter p := by
  induction acc, n, l using collapseM.induct <;>
    simp_all [collapseM, List.filter_cons, List.filter_append, List.filter_reverse] <;>
    split <;> simp_all

/-- Dropping a prefix of rejected characters preserves a filter. -/
theorem filter_dropWhile (p q : Char → Bool) (himp : ∀ c, q c = true → p c = false)
    (l : List Char) : (l.dropWhile q).filter p = l.filter p := by
  induction l with
  | nil => rfl
  | cons c rest ih =>
      by_cases h : q c
      · simp_all [List.dropWhile_cons, List.filter_cons]
      · simp_all [List.dropWhile_cons, List.filter_cons]

/-- Trimming only deletes whitespace. -/
theorem filter_trimL (p : Char → Bool) (hws : ∀ c, isWs c = true → p c = false)
    (l : List Char) : (trimL l).filter p = l.filter p := by
  unfold trimL
  rw [List.filter_reverse, filter_dropWhile p isWs hws, List.filter_reverse,
    List.reverse_reverse, filter_dropWhile p isWs hws]

theorem beq_false_of_pred {q : Char → Bool} {d : Char} (hd : q d = false) :
    ∀ c, q c = true → (c == d) = false := by
  intro c hc
  cases h : c == d
  · rfl
  · rw [eq_of_beq h, hd] at hc
    simp at hc

theorem filter_pipeline_salary (p : Char → Bool) (hhash : p '#' = false)
    (hquote : p '>' = false) (hdot : p '.' = false)
    (hmk : ∀ c, isMarker c = true → p c = false)
    (hws : ∀ c, isWs c = true → p c = false) (l : List Char) :
    (trimL (stripQuotes (stripListMarkers (stripHeadings l)))).filter p = l.filter p := by
  unfold stripQuotes stripListMarkers stripHeadings
  rw [filter_trimL p hws, filter_stripQuoteM p hquote hws,
    filter_stripListM p hmk hdot hws _ _ (by simp [laccOf]),
    filter_stripHeadingsM p hhash hws]

theorem filter_pipeline_interview (p : Char → Bool) (hhash : p '#' = false)
    (hdot : p '.' = false)
    (hmk : ∀ c, isMarker c = true → p c = false)
    (hws : ∀ c, isWs c = true → p c = false) (l : List Char) :
    (trimL (stripListMarkers (stripHeadings l))).filter p = l.filter p := by
  unfold stripListMarkers stripHeadings
  rw [filter_trimL p hws, filter_stripListM p hmk hdot hws _ _ (by simp [laccOf]),
    filter_stripHeadingsM p hhash hws]

theorem filter_pipeline_chat (p : Char → Bool) (hhash : p '#' = false)
    (hdot : p '.' = false)
    (hmk : ∀ c, isMarker c = true → p c = false)
    (hws : ∀ c, isWs c = true → p c = false) (l : List Char) :
    (trimL (collapseNewlines (stripListMarkers (stripHeadings l)))).filter p = l.filter p := by
  unfold collapseNewlines stripListMarkers stripHeadings
  rw [filter_trimL p hws, filter_collapseM p (hws '\n' (by decide)) (hws '\r' (by decide)) _ _ _ (by simp),
    filter_stripListM p hmk hdot hws _ _ (by simp [laccOf]),
    filter_stripHeadingsM p hhash hws]

theorem star_filter_stripEmphasis (l : List Char) :
    (stripEmphasis l).filter (fun c => c == '*') = [] := by
  rw [stripEmphasis_eq_filter, List.filter_filter, List.filter_eq_nil_iff]
  intro a _
  cases hb : a == '*' <;> simp [hb]

theorem underscore_filter_stripEmphasis (l : List Char) :
    (stripEmphasis l).filter (fun c => c == '_') = [] := by
  rw [stripEmphasis_eq_filter, List.filter_filter, List.filter_eq_nil_iff]
  intro a _
  cases hb : a == '_' <;> simp [hb]

theorem star_filter_stripEmphasisStars (l : List Char) :
    (stripEmphasisStars l).filter (fun c => c == '*') = [] := by
  rw [stripEmphasisStars_eq_filter, List.filter_filter, List.filter_eq_nil_iff]
  intro a _
  cases hb : a == '*' <;> simp [hb]

theorem stripHeadingsM_scan_id (l : List Char) (h : ∀ c ∈ l, (c == '#') = false) :
    ∀ bol, stripHeadingsM (HMode.scan bol) l = l := by
  induction l with
  | nil => intro bol; rfl
  | cons c rest ih =>
      intro bol
      have hc := h c (by simp)
      simp [stripHeadingsM, hc, ih (fun a ha => h a (by simp [ha]))]

theorem stripListM_id (l : List Char) (h : ∀ c ∈ l, isMarker c = false) :
    (∀ bol, stripListM (LMode.scan bol) l = l) ∧
    (∀ acc, stripListM (LMode.lws acc) l = acc.reverse ++ l) := by
  induction l with
  | nil => constructor <;> intro x <;> simp [stripListM]
  | cons c rest ih =>
      have hc : isMarker c = false := h c (by simp)
      have ih2 := ih (fun a ha => h a (by simp [ha]))
      constructor
      · intro bol
        by_cases hw : isWs c
        · by_cases hb : bol
          · simp [stripListM, hb, hw, hc, ih2.2]
          · simp [stripListM, hb, hw, hc, ih2.1]
        · simp [stripListM, hw, hc, ih2.1]
      · intro acc
        by_cases hw : isWs c
        · simp [stripListM, hw, hc, ih2.2]
        · simp [stripListM, hw, hc, ih2.1]

theorem stripQuoteM_scan_id (l : List Char) (h : ∀ c ∈ l, (c == '>') = false) :
    ∀ bol, stripQuoteM (QMode.scan bol) l = l := by
  induction l with
  | nil => intro bol; rfl
  | cons c rest ih =>
      intro bol
      have hc := h c (by simp)
      simp [stripQuoteM, hc, ih (fun a ha => h a (by simp [ha]))]

theorem stripEmphasis_id (l : List Char) (h : ∀ c ∈ l, (c == '*' || c == '_') = false) :
    stripEmphasis l = l := by
  rw [stripEmphasis_eq_filter]
  rw [List.filter_eq_self]
  intro a ha
  simp [h a ha]

theorem mem_stripEmphasis {c : Char} {l : List Char} (h : c ∈ stripEmphasis l) :
    c ∈ l ∧ (c == '*' || c == '_') = false := by
  rw [stripEmphasis_eq_filter] at h
  have := List.mem_filter.mp h
  refine ⟨this.1, ?_⟩
  have h2 := this.2
  simp at h2
  simp [h2.1, h2.2]

theorem dropWhile_head_false (q : Char → Bool) (l : List Char) :
    ∀ a, (l.dropWhile q).head? = some a → q a = false := by
  induction l with
  | nil => intro a ha; simp at ha
  | cons c rest ih =>
      intro a ha
      by_cases h : q c
      · rw [List.dropWhile_cons_of_pos h] at ha
        exact ih a ha
      · rw [List.dropWhile_cons_of_neg h] at ha
        simp at ha
        rw [← ha]
        simp [h]

theorem dropWhile_eq_self_of_head (q : Char → Bool) (l : List Char)
    (h : ∀ a, l.head? = some a → q a = false) : l.dropWhile q = l := by
  cases l with
  | nil => rfl
  | cons c rest => simp [List.dropWhile_cons, h c rfl]

theorem dropWhile_exists_append (q : Char → Bool) (l : List Char) :
    ∃ t, t ++ l.dropWhile q = l := by
  induction l with
  | nil => exact ⟨[], rfl⟩
  | cons c rest ih =>
      by_cases h : q c
      · obtain ⟨t, ht⟩ := ih
        exact ⟨c :: t, by simp [List.dropWhile_cons, h, ht]⟩
      · exact ⟨[], by simp [List.dropWhile_cons, h]⟩

theorem mem_dropWhile {c : Char} {q : Char → Bool} {l : List Char}
    (h : c ∈ l.dropWhile q) : c ∈ l := by
  obtain ⟨t, ht⟩ := dropWhile_exists_append q l
  rw [← ht]
  exact List.mem_append_right t h

theorem mem_trimL {c : Char} {l : List Char} (h : c ∈ trimL l) : c ∈ l := by
  unfold trimL at h
  rw [List.mem_reverse] at h
  replace h := mem_dropWhile h
  rw [List.mem_reverse] at h
  exact mem_dropWhile h

theorem trimL_idem (l : List Char) : trimL (trimL l) = trimL l := by
  have hA : ∀ a, (l.dropWhile isWs).head? = some a → isWs a = false :=
    dropWhile_head_false isWs l
  have hB : ∀ a, ((l.dropWhile isWs).reverse.dropWhile isWs).head? = some a → isWs a = false :=
    dropWhile_head_false isWs (l.dropWhile isWs).reverse
  unfold trimL
  have step1 : ((l.dropWhile isWs).reverse.dropWhile isWs).reverse.dropWhile isWs =
      ((l.dropWhile isWs).reverse.dropWhile isWs).reverse := by
    apply dropWhile_eq_self_of_head
    intro a ha
    obtain ⟨t, ht⟩ := dropWhile_exists_append isWs (l.dropWhile isWs).reverse
    cases hc : ((l.dropWhile isWs).reverse.dropWhile isWs).reverse with
    | nil => rw [hc] at ha; simp at ha
    | cons b bs =>
        rw [hc] at ha
        simp at ha
        have hAe : l.dropWhile isWs = b :: (bs ++ t.reverse) := by
          have := congrArg List.reverse ht
          rw [List.reverse_append, List.reverse_reverse] at this
          rw [← this, hc]
          simp
        have := hA b (by rw [hAe]; rfl)
        rw [ha] at this
        exact this
  rw [step1, List.reverse_reverse, dropWhile_eq_self_of_head isWs _ hB]

theorem trimL_eq_nil_of_all_ws (l : List Char) (h : ∀ c ∈ l, isWs c = true) :
    trimL l = [] := by
  unfold trimL
  have hd : l.dropWhile isWs = [] := by
    induction l with
    | nil => rfl
    | cons c rest ih =>
        rw [List.dropWhile_cons_of_pos (h c (by simp))]
        exact ih (fun a ha => h a (by simp [ha]))
  simp [hd]

/-- C7: a job description blank after trimming makes `handleAnalyze` toast the
validation error and return before any request: no fetch is issued and the
stored analysis result is unchanged. -/
theorem claim7_blank_job_description (jobRequirement : List Char)
    (h : (trimL jobRequirement).isEmpty = true) :
    ∀ (prev : Option AnalysisResultPayload) (fetch : FetchOutcome AnalyzeResponse),
      handleAnalyze jobRequirement prev fetch =
        ⟨prev, false, AnalysisToast.jobRequirementRequired⟩ := by
  intro prev fetch
  simp [handleAnalyze, h]

theorem claim7_witness :
    (trimL (chars "   ")).isEmpty = true ∧
      handleAnalyze (chars "   ") none FetchOutcome.failure =
        ⟨none, false, AnalysisToast.jobRequirementRequired⟩ :=
  ⟨by decide, claim7_blank_job_description (chars "   ") (by decide) none FetchOutcome.failure⟩

/-- C9: `handleSend` is atomic: with nonempty text, a failed call leaves the
message list exactly as before, and a successful call appends exactly the user
message followed by the cleaned assistant message. -/
theorem claim9_chat_send_atomic (messages : List ChatMessage) (textToSend : List Char)
    (hne : textToSend ≠ []) :
    handleSend messages textToSend FetchOutcome.failure = messages ∧
    ∀ response, handleSend messages textToSend (FetchOutcome.success response) =
      messages ++ [⟨Role.user, textToSend⟩, ⟨Role.assistant, cleanResponseFormatting response⟩] := by
  have he : textToSend.isEmpty = false := by
    cases textToSend with
    | nil => exact absurd rfl hne
    | cons c rest => rfl
  constructor
  · simp [handleSend, he, List.dropLast_concat]
  · intro response
    simp [handleSend, he]

theorem claim9_witness :
    chars "hi" ≠ [] ∧ handleSend [] (chars "hi") FetchOutcome.failure = [] :=
  ⟨by decide, (claim9_chat_send_atomic [] (chars "hi") (by decide)).1⟩

/-- C10: the cover-letter request carries the literal default company name
when the input trims to nothing (in particular for all-whitespace input) and
the trimmed user-supplied name otherwise. -/
theorem claim10_company_default (jobRequirement companyName : List Char) :
    (trimL companyName = [] →
        (coverLetterRequestBody jobRequirement companyName).company_name = chars "Hiring Team") ∧
    (trimL companyName ≠ [] →
        (coverLetterRequestBody jobRequirement companyName).company_name = trimL companyName) ∧
    ((∀ c ∈ companyName, isWs c = true) →
        (coverLetterRequestBody jobRequirement companyName).company_name = chars "Hiring Team") := by
  refine ⟨?_, ?_, ?_⟩
  · intro h
    simp [coverLetterRequestBody, jsOrDefault, h]
  · intro h
    simp [coverLetterRequestBody, jsOrDefault, List.isEmpty_iff, h]
  · intro h
    simp [coverLetterRequestBody, jsOrDefault, trimL_eq_nil_of_all_ws companyName h]

theorem claim10_witness :
    trimL (chars "  \t ") = [] ∧
      (coverLetterRequestBody (chars "job") (chars "  \t ")).company_name = chars "Hiring Team" :=
  ⟨by decide, (claim10_company_default (chars "job") (chars "  \t ")).1 (by decide)⟩

/-- C6, counterexample: a payload whose first result misses `keyword_analysis`
is stored as-is by `handleAnalyze` with a success toast — it is not rejected
as an incomplete response. -/
theorem claim6_counterexample :
    (AnalysisResultPayload.mk (some 77) (some ⟨70, 80, 5⟩) none
        (some ⟨chars "medium", chars "Good Match"⟩) (some (chars "ok")) (some [])).keyword_analysis
        = none ∧
    handleAnalyze (chars "job description") none
        (FetchOutcome.success ⟨[AnalysisResultPayload.mk (some 77) (some ⟨70, 80, 5⟩) none
          (some ⟨chars "medium", chars "Good Match"⟩) (some (chars "ok")) (some [])]⟩) =
      ⟨some (AnalysisResultPayload.mk (some 77) (some ⟨70, 80, 5⟩) none
        (some ⟨chars "medium", chars "Good Match"⟩) (some (chars "ok")) (some [])),
        true, AnalysisToast.analysisComplete⟩ := by
  constructor
  · rfl
  · decide

/-- C6, amended: the interview receiver rejects payloads missing the technical
or behavioral questions and leaves no prep data in state, defaulting only the
two other array fields to the empty sequence; the analysis receiver performs
no validation at all and stores the first result whatever keys it misses. -/
theorem claim6_amended :
    (∀ d : InterviewPrepPayload,
        d.technical_questions = none ∨ d.behavioral_questions = none →
        processInterviewPayload d = none) ∧
    (∀ (jr : List Char) (prev : Option InterviewPrepData) (d : InterviewPrepPayload),
        (trimL jr).isEmpty = false → processInterviewPayload d = none →
        handleGenerateInterview jr prev (FetchOutcome.success d) =
          ⟨none, true, InterviewToast.generationFailed⟩) ∧
    (∀ (d : InterviewPrepPayload) (tq bq : List (List Char)),
        d.technical_questions = some tq → d.behavioral_questions = some bq →
        d.key_talking_points = none → d.questions_to_ask = none →
        processInterviewPayload d =
          some ⟨tq.map cleanTextInterview, bq.map cleanTextInterview, [], []⟩) ∧
    (∀ (jr : List Char) (prev : Option AnalysisResultPayload)
        (r : AnalysisResultPayload) (rest : List AnalysisResultPayload),
        (trimL jr).isEmpty = false →
        handleAnalyze jr prev (FetchOutcome.success ⟨r :: rest⟩) =
          ⟨some r, true, AnalysisToast.analysisComplete⟩) := by
  refine ⟨?_, ?_, ?_, ?_⟩
  · intro d hd
    rcases hd with hd | hd <;> rcases d with ⟨tq, bq, kt, qa⟩ <;>
      simp at hd <;> subst hd <;> simp [processInterviewPayload]
  · intro jr prev d hjr hd
    simp [handleGenerateInterview, hjr, hd]
  · intro d tq bq htq hbq hkt hqa
    rcases d with ⟨a, b, k, q⟩
    simp at htq hbq hkt hqa
    subst htq; subst hbq; subst hkt; subst hqa
    rfl
  · intro jr prev r rest hjr
    simp [handleAnalyze, hjr]

theorem claim6_amended_witness :
    (InterviewPrepPayload.mk none (some []) none none).technical_questions = none ∧
      processInterviewPayload (InterviewPrepPayload.mk none (some []) none none) = none :=
  ⟨rfl, claim6_amended.1 (InterviewPrepPayload.mk none (some []) none none) (Or.inl rfl)⟩

theorem rank_text_green : colorBandRank (chars "text-green-600 dark:text-green-400") = 3 := by decide
theorem rank_text_yellow : colorBandRank (chars "text-yellow-600 dark:text-yellow-400") = 2 := by decide
theorem rank_text_orange : colorBandRank (chars "text-orange-600 dark:text-orange-400") = 1 := by decide
theorem rank_text_red : colorBandRank (chars "text-red-600 dark:text-red-400") = 0 := by decide
theorem rank_bg_green : colorBandRank (chars "bg-green-600") = 3 := by decide
theorem rank_bg_yellow : colorBandRank (chars "bg-yellow-600") = 2 := by decide
theorem rank_bg_orange : colorBandRank (chars "bg-orange-600") = 1 := by decide
theorem rank_bg_red : colorBandRank (chars "bg-red-600") = 0 := by decide

/-- C8: the two color bandings of the analysis view use the fixed thresholds
85, 70 and 50 in that order, agree with each other, and the band is
monotonically non-decreasing in the score. -/
theorem claim8_threshold_bands (s t : Int) (hst : s ≤ t) :
    (colorBandRank (getScoreColor s) ≤ colorBandRank (getScoreColor t) ∧
      colorBandRank (getProgressColor s) ≤ colorBandRank (getProgressColor t)) ∧
    colorBandRank (getProgressColor s) = colorBandRank (getScoreColor s) ∧
    (colorBandRank (getScoreColor s) = 3 ↔ 85 ≤ s) ∧
    (colorBandRank (getScoreColor s) = 2 ↔ 70 ≤ s ∧ s < 85) ∧
    (colorBandRank (getScoreColor s) = 1 ↔ 50 ≤ s ∧ s < 70) ∧
    (colorBandRank (getScoreColor s) = 0 ↔ s < 50) := by
  unfold getScoreColor getProgressColor
  split_ifs <;>
    simp [rank_text_green, rank_text_yellow, rank_text_orange, rank_text_red,
      rank_bg_green, rank_bg_yellow, rank_bg_orange, rank_bg_red] <;>
    omega

theorem claim8_witness :
    (60 : Int) ≤ 90 ∧
      colorBandRank (getScoreColor 60) ≤ colorBandRank (getScoreColor 90) :=
  ⟨by norm_num, (claim8_threshold_bands 60 90 (by norm_num)).1.1⟩

theorem round_nat_div_ten (N : Nat) :
    round ((N : ℚ) / 10) = (((N + 5) / 10 : Nat) : Int) := by
  have h1 : (N : ℚ) / 10 + 1 / 2 = (((N + 5 : Nat) : Int) : ℚ) / ((10 : Nat) : ℚ) := by
    push_cast
    ring
  rw [round_eq, h1, Rat.floor_intCast_div_natCast, Int.ofNat_tdiv,
    Int.tdiv_eq_ediv (by positivity) (by norm_num)]

/-- C1: under the documented bounds the overall score is the rounding of the
weighted sum with weights sixty, thirty and ten percent, stays at most one
hundred and is monotone in each component; and the analysis view labels the
three components with those weights and scales the density-bonus progress bar
by ten. -/
theorem claim1_score_formula (sm ss b : Nat)
    (hsm : sm ≤ 100) (hss : ss ≤ 100) (hb : b ≤ 10) :
    ((overallScore sm ss b : Int) =
        round (0.6 * (sm : ℚ) + 0.3 * (ss : ℚ) + ((b : ℚ) / 10) * 100 * 0.1) ∧
      overallScore sm ss b ≤ 100) ∧
    (∀ sm2 ss2 b2, sm ≤ sm2 → ss ≤ ss2 → b ≤ b2 →
        overallScore sm ss b ≤ overallScore sm2 ss2 b2) ∧
    ∀ bd : ScoreBreakdownData, bd.skill_match = sm → bd.semantic_similarity = ss →
      bd.keyword_density_bonus = b →
      renderScoreBreakdown bd =
        [⟨chars "Keyword Match (60%)", sm, sm⟩,
         ⟨chars "Content Match (30%)", ss, ss⟩,
         ⟨chars "Density Bonus (10%)", b, b * 10⟩] := by
  have hmin : overallScore sm ss b = (6 * sm + 3 * ss + 10 * b + 5) / 10 := by
    unfold overallScore
    have hle : (6 * sm + 3 * ss + 10 * b + 5) / 10 ≤ 100 := by
      have : 6 * sm + 3 * ss + 10 * b + 5 ≤ 1005 := by omega
      calc (6 * sm + 3 * ss + 10 * b + 5) / 10 ≤ 1005 / 10 := Nat.div_le_div_right this
        _ = 100 := by norm_num
    exact min_eq_right hle
  refine ⟨⟨?_, ?_⟩, ?_, ?_⟩
  · have hq : 0.6 * (sm : ℚ) + 0.3 * (ss : ℚ) + ((b : ℚ) / 10) * 100 * 0.1 =
        ((6 * sm + 3 * ss + 10 * b : Nat) : ℚ) / 10 := by
      push_cast
      ring
    rw [hq, round_nat_div_ten, hmin]
  · rw [hmin]
    have : 6 * sm + 3 * ss + 10 * b + 5 ≤ 1005 := by omega
    calc (6 * sm + 3 * ss + 10 * b + 5) / 10 ≤ 1005 / 10 := Nat.div_le_div_right this
      _ = 100 := by norm_num
  · intro sm2 ss2 b2 h1 h2 h3
    unfold overallScore
    refine min_le_min (le_refl 100) (Nat.div_le_div_right ?_)
    omega
  · intro bd h1 h2 h3
    subst h1; subst h2; subst h3
    rfl

theorem claim1_witness :
    (80 : Nat) ≤ 100 ∧
      (overallScore 80 70 5 : Int) =
        round (0.6 * ((80 : Nat) : ℚ) + 0.3 * ((70 : Nat) : ℚ) +
          (((5 : Nat) : ℚ) / 10) * 100 * 0.1) :=
  ⟨by norm_num,
    (claim1_score_formula 80 70 5 (by norm_num) (by norm_num) (by norm_num)).1.1⟩

theorem filter_cleanTextSalary_emph (p : Char → Bool) (hhash : p '#' = false)
    (hquote : p '>' = false) (hdot : p '.' = false)
    (hmk : ∀ c, isMarker c = true → p c = false)
    (hws : ∀ c, isWs c = true → p c = false) (l : List Char) :
    (cleanTextSalary l).filter p = (stripEmphasis l).filter p := by
  unfold cleanTextSalary
  split
  · next h => rw [List.isEmpty_iff] at h; subst h; rfl
  · exact filter_pipeline_salary p hhash hquote hdot hmk hws _

theorem filter_cleanTextInterview_emph (p : Char → Bool) (hhash : p '#' = false)
    (hdot : p '.' = false)
    (hmk : ∀ c, isMarker c = true → p c = false)
    (hws : ∀ c, isWs c = true → p c = false) (l : List Char) :
    (cleanTextInterview l).filter p = (stripEmphasis l).filter p := by
  unfold cleanTextInterview
  split
  · next h => rw [List.isEmpty_iff] at h; subst h; rfl
  · exact filter_pipeline_interview p hhash hdot hmk hws _

theorem filter_cleanResponse_emph (p : Char → Bool) (hhash : p '#' = false)
    (hdot : p '.' = false)
    (hmk : ∀ c, isMarker c = true → p c = false)
    (hws : ∀ c, isWs c = true → p c = false) (l : List Char) :
    (cleanResponseFormatting l).filter p = (stripEmphasisStars l).filter p := by
  unfold cleanResponseFormatting
  split
  · next h => rw [List.isEmpty_iff] at h; subst h; rfl
  · exact filter_pipeline_chat p hhash hdot hmk hws _

theorem not_mem_of_filter_beq_nil {c : Char} {l : List Char}
    (h : l.filter (fun a => a == c) = []) : c ∉ l := by
  intro hm
  have : c ∈ l.filter (fun a => a == c) := List.mem_filter.mpr ⟨hm, by simp⟩
  rw [h] at this
  simp at this

/-- C2, counterexample: the chat normalizer `cleanResponseFormatting` does not
remove underscores, so its output can contain an underscore. -/
theorem claim2_counterexample :
    '_' ∈ cleanResponseFormatting (chars "_hello_") := by decide

/-- C2, amended: the salary and interview `cleanText` remove every asterisk
and underscore, so their output contains neither character; the chat
`cleanResponseFormatting` removes only the asterisk markers, so its output
contains no asterisk (but may retain underscores). -/
theorem claim2_amended (l : List Char) :
    ('*' ∉ cleanTextSalary l ∧ '_' ∉ cleanTextSalary l) ∧
    ('*' ∉ cleanTextInterview l ∧ '_' ∉ cleanTextInterview l) ∧
    '*' ∉ cleanResponseFormatting l := by
  refine ⟨⟨?_, ?_⟩, ⟨?_, ?_⟩, ?_⟩
  · apply not_mem_of_filter_beq_nil
    rw [filter_cleanTextSalary_emph _ (by decide) (by decide) (by decide)
      (beq_false_of_pred (by decide)) (beq_false_of_pred (by decide))]
    exact star_filter_stripEmphasis l
  · apply not_mem_of_filter_beq_nil
    rw [filter_cleanTextSalary_emph _ (by decide) (by decide) (by decide)
      (beq_false_of_pred (by decide)) (beq_false_of_pred (by decide))]
    exact underscore_filter_stripEmphasis l
  · apply not_mem_of_filter_beq_nil
    rw [filter_cleanTextInterview_emph _ (by decide) (by decide)
      (beq_false_of_pred (by decide)) (beq_false_of_pred (by decide))]
    exact star_filter_stripEmphasis l
  · apply not_mem_of_filter_beq_nil
    rw [filter_cleanTextInterview_emph _ (by decide) (by decide)
      (beq_false_of_pred (by decide)) (beq_false_of_pred (by decide))]
    exact underscore_filter_stripEmphasis l
  · apply not_mem_of_filter_beq_nil
    rw [filter_cleanResponse_emph _ (by decide) (by decide)
      (beq_false_of_pred (by decide)) (beq_false_of_pred (by decide))]
    exact star_filter_stripEmphasisStars l

theorem structuralChar_of_ws : ∀ c, isWs c = true → structuralChar c = true := by
  intro c h
  simp [structuralChar, h]

theorem structuralChar_of_marker : ∀ c, isMarker c = true → structuralChar c = true := by
  intro c h
  unfold isMarker at h
  unfold structuralChar isClaimMarkup
  simp only [Bool.or_eq_true] at h ⊢
  tauto

/-- C3, counterexample: the word 2024 of the input is a maximal run of
non-markup, non-whitespace characters, yet the salary cleaner removes it (the
list-marker strip eats a line-leading number), so it is no longer present in
the output. -/
theorem claim3_counterexample :
    chars "2024" ∈ wordsOf (chars "2024 was a big year") ∧
    ¬ (chars "2024" <:+: cleanTextSalary (chars "2024 was a big year")) ∧
    cleanTextSalary (chars "2024 was a big year") = chars "was a big year" := by
  refine ⟨by decide, by decide, by decide⟩

/-- C3, amended: the cleaners delete only structural characters — whitespace,
the markup characters, dots and digits; the subsequence of all other
characters is preserved exactly.  (A line-leading number, being digits, can be
deleted, so not every word survives.) -/
theorem claim3_amended (l : List Char) :
    (cleanTextSalary l).filter (fun c => !structuralChar c) =
      l.filter (fun c => !structuralChar c) ∧
    (cleanResponseFormatting l).filter (fun c => !structuralChar c) =
      l.filter (fun c => !structuralChar c) := by
  have hws : ∀ c, isWs c = true → (!structuralChar c) = false := by
    intro c h; simp [structuralChar_of_ws c h]
  have hmk : ∀ c, isMarker c = true → (!structuralChar c) = false := by
    intro c h; simp [structuralChar_of_marker c h]
  constructor
  · rw [filter_cleanTextSalary_emph _ (by decide) (by decide) (by decide) hmk hws,
      stripEmphasis_eq_filter, List.filter_filter]
    apply List.filter_congr
    intro a _
    cases hs : structuralChar a
    · have h1 : (a == '*') = false := by
        cases hb : a == '*'
        · rfl
        · rw [eq_of_beq hb] at hs; exact absurd hs (by decide)
      have h2 : (a == '_') = false := by
        cases hb : a == '_'
        · rfl
        · rw [eq_of_beq hb] at hs; exact absurd hs (by decide)
      simp [h1, h2]
    · simp
  · rw [filter_cleanResponse_emph _ (by decide) (by decide) hmk hws,
      stripEmphasisStars_eq_filter, List.filter_filter]
    apply List.filter_congr
    intro a _
    cases hs : structuralChar a
    · have h1 : (a == '*') = false := by
        cases hb : a == '*'
        · rfl
        · rw [eq_of_beq hb] at hs; exact absurd hs (by decide)
      simp [h1]
    · simp

theorem cleanTextSalary_eq_trim_emph (l : List Char)
    (h : ∀ c ∈ l, (c == '#') = false ∧ isMarker c = false ∧ (c == '>') = false) :
    cleanTextSalary l = trimL (stripEmphasis l) := by
  have hmem : ∀ c ∈ stripEmphasis l,
      (c == '#') = false ∧ isMarker c = false ∧ (c == '>') = false :=
    fun c hc => h c (mem_stripEmphasis hc).1
  unfold cleanTextSalary
  split
  · next he => rw [List.isEmpty_iff] at he; subst he; rfl
  · unfold stripHeadings stripListMarkers stripQuotes
    rw [stripHeadingsM_scan_id _ (fun c hc => (hmem c hc).1) true,
      (stripListM_id _ (fun c hc => (hmem c hc).2.1)).1 true,
      stripQuoteM_scan_id _ (fun c hc => (hmem c hc).2.2) true]

theorem cleanTextInterview_eq_trim_emph (l : List Char)
    (h : ∀ c ∈ l, (c == '#') = false ∧ isMarker c = false ∧ (c == '>') = false) :
    cleanTextInterview l = trimL (stripEmphasis l) := by
  have hmem : ∀ c ∈ stripEmphasis l,
      (c == '#') = false ∧ isMarker c = false ∧ (c == '>') = false :=
    fun c hc => h c (mem_stripEmphasis hc).1
  unfold cleanTextInterview
  split
  · next he => rw [List.isEmpty_iff] at he; subst he; rfl
  · unfold stripHeadings stripListMarkers
    rw [stripHeadingsM_scan_id _ (fun c hc => (hmem c hc).1) true,
      (stripListM_id _ (fun c hc => (hmem c hc).2.1)).1 true]

/-- C4, counterexample: neither `cleanText` is idempotent: stripping the first
list marker of a line exposes a second one that only a second application
removes. -/
theorem claim4_counterexample :
    cleanTextSalary (cleanTextSalary (chars "- - x")) ≠ cleanTextSalary (chars "- - x") ∧
    cleanTextInterview (cleanTextInterview (chars "- - x")) ≠
      cleanTextInterview (chars "- - x") := by
  constructor <;> decide

/-- C4, amended: on strings containing no hash sign, no list-marker character
(dash, plus or digit) and no greater-than sign, both `cleanText` normalizers
are idempotent; in general a first pass can expose a fresh line-leading marker
and idempotence fails. -/
theorem claim4_amended (l : List Char)
    (h : ∀ c ∈ l, (c == '#') = false ∧ isMarker c = false ∧ (c == '>') = false) :
    cleanTextSalary (cleanTextSalary l) = cleanTextSalary l ∧
    cleanTextInterview (cleanTextInterview l) = cleanTextInterview l := by
  have ht : ∀ c ∈ trimL (stripEmphasis l),
      (c == '#') = false ∧ isMarker c = false ∧ (c == '>') = false := by
    intro c hc
    exact h c (mem_stripEmphasis (mem_trimL hc)).1
  have hstar : ∀ c ∈ trimL (stripEmphasis l), (c == '*' || c == '_') = false := by
    intro c hc
    exact (mem_stripEmphasis (mem_trimL hc)).2
  constructor
  · rw [cleanTextSalary_eq_trim_emph l h, cleanTextSalary_eq_trim_emph _ ht,
      stripEmphasis_id _ hstar, trimL_idem]
  · rw [cleanTextInterview_eq_trim_emph l h, cleanTextInterview_eq_trim_emph _ ht,
      stripEmphasis_id _ hstar, trimL_idem]

theorem claim4_witness :
    (∀ c ∈ chars "**hello** _world_",
        (c == '#') = false ∧ isMarker c = false ∧ (c == '>') = false) ∧
      cleanTextSalary (cleanTextSalary (chars "**hello** _world_")) =
        cleanTextSalary (chars "**hello** _world_") :=
  ⟨by decide, (claim4_amended (chars "**hello** _world_") (by decide)).1⟩

theorem brReplace_no_newline (p : List Char) : '\n' ∉ brReplace p := by
  have hbr : '\n' ∉ chars "<br>" := by decide
  induction p using brReplace.induct <;> simp_all [brReplace, eq_comm]

/-- C5, counterexample: the split boundary of the cover-letter block mode is
not two-or-more consecutive line breaks: two line breaks separated by a space
also split, unlike the split the claim describes. -/
theorem claim5_counterexample :
    textToHtmlParagraphs (chars "a\n \nb") ≠ claimedHtmlParagraphs (chars "a\n \nb") := by
  decide

/-- C5, amended: the scenario holds — the sample yields exactly the two
paragraphs Bold text and Next para — and in general the split boundary is a
line break, optional whitespace and a final line break; paragraphs blank
after trimming are dropped and every remaining line break becomes an explicit
break tag. -/
theorem claim5_amended :
    (textToHtmlParagraphs (chars "**Bold** text\n\n\n\nNext para") =
        chars "<p class=\"mb-4 leading-relaxed\">Bold text</p><p class=\"mb-4 leading-relaxed\">Next para</p>") ∧
    (∀ t p : List Char,
        p ∈ (splitParagraphs (trimL (stripEmphasis t))).filter (fun q => !(trimL q).isEmpty) →
        trimL p ≠ []) ∧
    ∀ p : List Char, '\n' ∉ brReplace p := by
  refine ⟨by decide, ?_, brReplace_no_newline⟩
  intro t p hp hnil
  have h2 := (List.mem_filter.mp hp).2
  simp only [Bool.not_eq_true'] at h2
  rw [hnil] at h2
  simp at h2

theorem claim5_witness :
    chars "x" ∈ (splitParagraphs (trimL (stripEmphasis (chars "x\n\ny")))).filter
        (fun q => !(trimL q).isEmpty) ∧ trimL (chars "x") ≠ [] :=
  ⟨by decide, claim5_amended.2.1 (chars "x\n\ny") (chars "x") (by decide)⟩

end CareerCompass
